import Mathlib

/-!
Verification of the steppable QuickHull implementation (`src/quickhull.cpp`).

The C++ core is embedded shallowly:

* `Point`, `StepDataProgress`, `StepData` mirror the C++ structures; the
  recursion tree's `prevStep` back-pointers are represented by a zipper
  context (`Frame`) held next to the cursor node, so the mutation of parents
  done through shared pointers in C++ becomes explicit state passing.
* `QuickHull`'s mutable members become the record `QHState`; `step`
  returns `Option (Bool × QHState)` — `none` stands for the undefined
  behaviour paths (out-of-bounds `std::vector` indexing, null dereference).
* `randomizeInput` takes the already generated point list as input: the
  `rand()` loop only fills `basePointList`, whose contents are external to
  the algorithm.

Machine integers: coordinates are modelled as `Int` (exact); the separate
`det32` models the 32-bit wrapping evaluation of the orientation
determinant, compared with the exact value for the generator's coordinate
range.
-/

/-- Window/geometry constants from the top of `quickhull.cpp`. -/
def windowWidth : Int := 1280

/-- Window height constant from `quickhull.cpp`. -/
def windowHeight : Int := 720

/-- Margin kept from the window edge when generating points. -/
def windowMargin : Int := 10

/-- Maximal x-extent of generated points: `windowWidth - (windowMargin * 2)`. -/
def pointXmax : Int := windowWidth - (windowMargin * 2)

/-- Maximal y-extent of generated points: `windowHeight - (windowMargin * 2)`. -/
def pointYmax : Int := windowHeight - (windowMargin * 2)

/-- `struct Point { int x; int y; }`. -/
structure Point where
  x : Int
  y : Int
deriving DecidableEq, Repr

/-- `enum StepDataProgress`: progress marker for interrupted recursions.
`SDP_FirstIteration` is only used for the very first line. -/
inductive StepDataProgress : Type where
  | SDP_RecurseOne
  | SDP_RecurseTwo
  | SDP_Done
  | SDP_FirstIteration
deriving DecidableEq, Repr

export StepDataProgress (SDP_RecurseOne SDP_RecurseTwo SDP_Done SDP_FirstIteration)

/-- `struct StepData`: one node of the explicit recursion tree. The C++
`prevStep` parent pointer is not a field here: it is represented by the
zipper context of the enclosing `QHState`. -/
inductive StepData : Type where
  | mk (pointSet : List Point) (segmentA segmentB : Point)
       (progress : StepDataProgress)
       (recursiveOne recursiveTwo : Option StepData) : StepData

/-- Field accessor for `StepData.pointSet`. -/
def StepData.pointSet : StepData → List Point
  | ⟨pts, _, _, _, _, _⟩ => pts

/-- Field accessor for `StepData.segmentA`. -/
def StepData.segmentA : StepData → Point
  | ⟨_, a, _, _, _, _⟩ => a

/-- Field accessor for `StepData.segmentB`. -/
def StepData.segmentB : StepData → Point
  | ⟨_, _, b, _, _, _⟩ => b

/-- Field accessor for `StepData.progress`. -/
def StepData.progress : StepData → StepDataProgress
  | ⟨_, _, _, p, _, _⟩ => p

/-- Field accessor for `StepData.recursiveOne`. -/
def StepData.recursiveOne : StepData → Option StepData
  | ⟨_, _, _, _, c, _⟩ => c

/-- Field accessor for `StepData.recursiveTwo`. -/
def StepData.recursiveTwo : StepData → Option StepData
  | ⟨_, _, _, _, _, c⟩ => c

/-- `nextStep->progress = p` (functional update). -/
def StepData.setProgress : StepData → StepDataProgress → StepData
  | ⟨pts, a, b, _, c1, c2⟩, p => ⟨pts, a, b, p, c1, c2⟩

/-- `nextStep->recursiveOne = nullptr; nextStep->recursiveTwo = nullptr;`. -/
def StepData.clearChildren : StepData → StepData
  | ⟨pts, a, b, p, _, _⟩ => ⟨pts, a, b, p, none, none⟩

/-- Which child slot of the parent the cursor currently occupies. -/
inductive Side : Type where
  | one
  | two
deriving DecidableEq, Repr

/-- One zipper frame: all the data of a parent `StepData` except the child
slot the cursor is currently inside (`side` records which slot that is,
`other` is the remaining sibling slot). -/
structure Frame where
  pointSet : List Point
  segmentA : Point
  segmentB : Point
  progress : StepDataProgress
  side : Side
  other : Option StepData

/-- Rebuild the parent node when the cursor moves back up to it
(`nextStep = nextStep->prevStep`): the child the cursor was in is put back
into its slot. -/
def Frame.reassemble (fr : Frame) (child : StepData) : StepData :=
  match fr.side with
  | Side.one => ⟨fr.pointSet, fr.segmentA, fr.segmentB, fr.progress, some child, fr.other⟩
  | Side.two => ⟨fr.pointSet, fr.segmentA, fr.segmentB, fr.progress, fr.other, some child⟩

/-- Build the frame left behind when the cursor descends from node `d` into
the child slot `side`. -/
def Frame.ofNode (d : StepData) (side : Side) : Frame :=
  match d, side with
  | ⟨pts, a, b, p, _, c2⟩, Side.one => ⟨pts, a, b, p, Side.one, c2⟩
  | ⟨pts, a, b, p, c1, _⟩, Side.two => ⟨pts, a, b, p, Side.two, c1⟩

/-- The mutable members of `class QuickHull` (drawing-only SFML members
omitted), plus the zipper context `ctx` standing for the chain of
`prevStep` pointers above the cursor `nextStep`. `furthestStore` is an
`Option` because the C++ member is uninitialised before the first
`SDP_RecurseOne` visit. -/
structure QHState where
  basePointList : List Point
  hullPoints : List Point
  nextStep : StepData
  ctx : List Frame
  center : Point
  minPoint : Point
  maxPoint : Point
  furthestStore : Option Point

/-- `QuickHull::comparePoints`: exact coordinate equality. -/
def comparePoints (lhs rhs : Point) : Bool :=
  lhs.x == rhs.x && lhs.y == rhs.y

/-- The orientation determinant `(x1*y2) + (x3*y1) + (x2*y3) - (x3*y2) -
(x2*y1) - (x1*y3)` that `calcPointsOnRightSide` and
`calculateFurthestPoint` both inline, with `1 = A` (segment begin),
`2 = B` (segment end), `3 = C` (queried point). -/
def determinant (A B C : Point) : Int :=
  (A.x * B.y) + (C.x * A.y) + (B.x * C.y) - (C.x * B.y) - (B.x * A.y) - (A.x * C.y)

/-- `QuickHull::calcPointsOnRightSide`: keep the points of `list` that are
not coordinate-equal to either segment endpoint and whose determinant
against the directed segment `pbegin → pend` is strictly negative. -/
def calcPointsOnRightSide (pbegin pend : Point) : List Point → List Point
  | [] => []
  | p :: rest =>
    if comparePoints p pbegin || comparePoints p pend then
      calcPointsOnRightSide pbegin pend rest
    else
      let x1 := pbegin.x
      let y1 := pbegin.y
      let x2 := pend.x
      let y2 := pend.y
      let x3 := p.x
      let y3 := p.y
      let det := (x1 * y2) + (x3 * y1) + (x2 * y3) - (x3 * y2) - (x2 * y1) - (x1 * y3)
      if det < 0 then p :: calcPointsOnRightSide pbegin pend rest
      else calcPointsOnRightSide pbegin pend rest

/-- The loop of `QuickHull::calculateFurthestPoint`: `furthest`/`prevMax`
are the loop accumulators, updated when the absolute determinant strictly
exceeds the previous maximum. -/
def calculateFurthestPointGo (segmentA segmentB : Point) (furthest : Point)
    (prevMax : Int) : List Point → Point
  | [] => furthest
  | p :: rest =>
    let det := |determinant segmentA segmentB p|
    if det > prevMax then calculateFurthestPointGo segmentA segmentB p det rest
    else calculateFurthestPointGo segmentA segmentB furthest prevMax rest

/-- `QuickHull::calculateFurthestPoint`. The C++ initialises `furthest =
list[0]`, which is an out-of-bounds read for an empty list: that case is
`none`. -/
def calculateFurthestPoint (segmentA segmentB : Point) (list : List Point) : Option Point :=
  match list with
  | [] => none
  | p :: rest => some (calculateFurthestPointGo segmentA segmentB p (-1) (p :: rest))

/-- The strict left-to-right, top-to-bottom comparator passed to
`std::sort` in `randomizeInput` and `prepareNextRecursion`. -/
def pointLt (left right : Point) : Bool :=
  decide ((left.x < right.x) ∨ (left.x = right.x ∧ left.y < right.y))

/-- Insert a point into a list sorted by `pointLt` (helper realising
`std::sort` as insertion sort; the comparator induces a total preorder whose
equivalence classes are single point values, so the sorted result is
unique). -/
def insertPoint (p : Point) : List Point → List Point
  | [] => [p]
  | q :: rest => if pointLt q p then q :: insertPoint p rest else p :: q :: rest

/-- `std::sort(..., pointLt)` on a point list. -/
def sortPoints : List Point → List Point
  | [] => []
  | p :: rest => insertPoint p (sortPoints rest)

/-- `QuickHull::prepareNextRecursion`: build the two child nodes from the
current node's point set. Returns the pair stored as
`(currentStep->recursiveOne, currentStep->recursiveTwo)` — note the C++
assigns `recursiveOne = rightStep` (segment `C → Q`) and
`recursiveTwo = leftStep` (segment `P → C`). The `prevStep` back-links are
the zipper's job. -/
def prepareNextRecursion (pointSet : List Point) (P Q C : Point) : StepData × StepData :=
  let leftStep : StepData :=
    ⟨sortPoints (calcPointsOnRightSide P C pointSet), P, C, SDP_RecurseOne, none, none⟩
  let rightStep : StepData :=
    ⟨sortPoints (calcPointsOnRightSide C Q pointSet), C, Q, SDP_RecurseOne, none, none⟩
  (rightStep, leftStep)

/-- `QuickHull::randomizeInput`, with the point-generation loop modelled by
the `generatedPoints` parameter (the `rand()` calls are external input).
Sorts the points, seeds the root node with the two extreme points, builds
the root's children, and puts the two extremes into `hullPoints`.
`basePointList[0]` on an empty vector is an out-of-bounds read: `none`. -/
def randomizeInput (generatedPoints : List Point) : Option QHState :=
  match sortPoints generatedPoints with
  | [] => none
  | p0 :: rest =>
    let basePointList := p0 :: rest
    let minPoint := p0
    let maxPoint := basePointList.getLast (List.cons_ne_nil p0 rest)
    let children := prepareNextRecursion basePointList minPoint minPoint maxPoint
    some
      { basePointList := basePointList
        hullPoints := [minPoint, maxPoint]
        nextStep := ⟨basePointList, minPoint, maxPoint, SDP_FirstIteration,
                     some children.1, some children.2⟩
        ctx := []
        center := ⟨windowWidth / 2, windowHeight / 2⟩
        minPoint := minPoint
        maxPoint := maxPoint
        furthestStore := none }

/-- The part of `QuickHull::step` from the `minPoint/maxPoint` aliases to
the `switch`: one "visit" of a node whose progress is not `SDP_Done`.
`none` marks the undefined-behaviour paths (`stepPoints[0]` on an empty
vector, descending into a null child). -/
def stepVisit (s : QHState) (cur : StepData) (ctx : List Frame) : Option (Bool × QHState) :=
  match cur with
  | ⟨pts, segmentA, segmentB, prog, recOne, recTwo⟩ =>
    match pts with
    | [] => none
    | p0 :: rest =>
      let minPoint := p0
      let maxPoint := (p0 :: rest).getLast (List.cons_ne_nil p0 rest)
      match calculateFurthestPoint segmentA segmentB (p0 :: rest) with
      | none => none
      | some furthest =>
        let hull1 := if prog = SDP_RecurseOne then s.hullPoints ++ [furthest] else s.hullPoints
        let fsto1 := if prog = SDP_RecurseOne then some furthest else s.furthestStore
        let kids :=
          if prog = SDP_RecurseOne then
            let pr := prepareNextRecursion (p0 :: rest) segmentA segmentB furthest
            (some pr.1, some pr.2)
          else (recOne, recTwo)
        match prog with
        | SDP_FirstIteration | SDP_RecurseOne =>
          match kids.1 with
          | none => none
          | some child =>
            some (true,
              { s with
                nextStep := child
                ctx := (⟨p0 :: rest, segmentA, segmentB, SDP_RecurseTwo, Side.one, kids.2⟩ :
                        Frame) :: ctx
                hullPoints := hull1
                furthestStore := fsto1
                minPoint := minPoint
                maxPoint := maxPoint })
        | SDP_RecurseTwo =>
          match kids.2 with
          | none => none
          | some child =>
            some (true,
              { s with
                nextStep := child
                ctx := (⟨p0 :: rest, segmentA, segmentB, SDP_Done, Side.two, kids.1⟩ :
                        Frame) :: ctx
                hullPoints := hull1
                furthestStore := fsto1
                minPoint := minPoint
                maxPoint := maxPoint })
        | SDP_Done =>
          some (true,
            { s with
              nextStep := ⟨p0 :: rest, segmentA, segmentB, prog, recOne, recTwo⟩
              ctx := ctx
              hullPoints := hull1
              furthestStore := fsto1
              minPoint := minPoint
              maxPoint := maxPoint })

/-- The `while (nextStep->progress == SDP_Done)` loop of `QuickHull::step`:
release the finished node's children, and either report that the whole
computation is over (no parent) or move the cursor to the parent and check
again; a node that is not done is visited. -/
def stepPop (s : QHState) (cur : StepData) (ctx : List Frame) : Option (Bool × QHState) :=
  if cur.progress = SDP_Done then
    match ctx with
    | [] => some (false, { s with nextStep := cur.clearChildren, ctx := [] })
    | fr :: rest => stepPop s (fr.reassemble cur.clearChildren) rest
  else stepVisit s cur ctx

/-- `QuickHull::step`: mark the cursor done when its point set is empty,
pop finished nodes, then perform one visit. Returns `some (more, s')` where
`more` is the C++ return value; `none` is an undefined-behaviour path. -/
def step (s : QHState) : Option (Bool × QHState) :=
  let cur0 := if s.nextStep.pointSet.isEmpty then s.nextStep.setProgress SDP_Done
              else s.nextStep
  stepPop s cur0 s.ctx

/-- Drive `step` with fuel: `some s'` when the computation reported "no
more steps" within `fuel` calls, `none` otherwise. -/
def run : Nat → QHState → Option QHState
  | 0, _ => none
  | fuel + 1, s =>
    match step s with
    | none => none
    | some (false, s') => some s'
    | some (true, s') => run fuel s'

/-- Repeat `step` another `n` times after a first call (used to state that
a finished computation stays finished). -/
def stepRepeat (s : QHState) : Nat → Option (Bool × QHState)
  | 0 => step s
  | n + 1 =>
    match step s with
    | none => none
    | some (_, s') => stepRepeat s' n

/-- Two's-complement wrap of an integer into `[-2^31, 2^31)`: the value a
32-bit `int` holds when an operation produces `z` (wrap-around model of the
C++ arithmetic). -/
def wrap32 (z : Int) : Int := (z + 2 ^ 31) % 2 ^ 32 - 2 ^ 31

/-- The orientation determinant as the C++ `int` arithmetic computes it:
every multiplication, addition and subtraction result wrapped to 32 bits,
in the source's left-to-right evaluation order. -/
def det32 (A B C : Point) : Int :=
  wrap32 (wrap32 (wrap32 (wrap32 (wrap32 (wrap32 (A.x * B.y) + wrap32 (C.x * A.y)) +
    wrap32 (B.x * C.y)) - wrap32 (C.x * B.y)) - wrap32 (B.x * A.y)) - wrap32 (A.x * C.y))

/-- Coordinates the random generator can produce:
`rand() % pointXmax + windowMargin` and `rand() % pointYmax + windowMargin`,
i.e. x in `[windowMargin, windowMargin + pointXmax)` and y in
`[windowMargin, windowMargin + pointYmax)`. -/
def inWindowRange (p : Point) : Prop :=
  windowMargin ≤ p.x ∧ p.x < windowMargin + pointXmax ∧
    windowMargin ≤ p.y ∧ p.y < windowMargin + pointYmax

instance (p : Point) : Decidable (inWindowRange p) := by
  unfold inWindowRange; infer_instance

/-- The filter predicate realised by `calcPointsOnRightSide`'s loop body. -/
def rightSidePred (pbegin pend : Point) (p : Point) : Bool :=
  !(comparePoints p pbegin || comparePoints p pend) && decide (determinant pbegin pend p < 0)

/-- `extremalDistance(A, B, C) = abs(orientationSign(A, B, C))`: the
comparison key of `calculateFurthestPoint`'s loop. -/
def extremalDistance (A B C : Point) : Int := |determinant A B C|

/-- A throwaway state used only as the default of `Option.getD` when naming
the (always present) result of a concrete computation. -/
def emptyState : QHState :=
  { basePointList := []
    hullPoints := []
    nextStep := ⟨[], ⟨0, 0⟩, ⟨0, 0⟩, SDP_Done, none, none⟩
    ctx := []
    center := ⟨0, 0⟩
    minPoint := ⟨0, 0⟩
    maxPoint := ⟨0, 0⟩
    furthestStore := none }

/-- Concrete input: a triangle whose apex lies above the base segment. -/
def demoInput1 : List Point := [⟨0, 0⟩, ⟨5, 5⟩, ⟨10, 0⟩]

/-- The state `randomizeInput` builds from `demoInput1`. -/
def demoState1 : QHState := (randomizeInput demoInput1).getD emptyState

/-- Concrete input: a triangle whose apex lies below the min–max segment
(so it lands in the root's first-visited child). -/
def demoInput2 : List Point := [⟨0, 0⟩, ⟨5, 1⟩, ⟨10, 0⟩]

/-- The state after `randomizeInput demoInput2` and one `step()` call. -/
def demoState2a : QHState :=
  (((randomizeInput demoInput2).bind step).map Prod.snd).getD emptyState

/-- The state after `randomizeInput demoInput2` and two `step()` calls. -/
def demoState2b : QHState := ((step demoState2a).map Prod.snd).getD emptyState

/-- The state after `randomizeInput demoInput2` and three `step()` calls. -/
def demoState2c : QHState := ((step demoState2b).map Prod.snd).getD emptyState

/-- A state whose whole computation is already exhausted: the cursor is the
root, marked `SDP_Done`, children released. -/
def finishedDemo : QHState :=
  { basePointList := [⟨0, 0⟩, ⟨1, 1⟩]
    hullPoints := [⟨0, 0⟩, ⟨1, 1⟩]
    nextStep := ⟨[⟨0, 0⟩, ⟨1, 1⟩], ⟨0, 0⟩, ⟨1, 1⟩, SDP_Done, none, none⟩
    ctx := []
    center := ⟨640, 360⟩
    minPoint := ⟨0, 0⟩
    maxPoint := ⟨1, 1⟩
    furthestStore := some ⟨1, 1⟩ }

/-- Termination potential of one recursion node: nodes not yet split weigh
`2 * 3 ^ |pointSet|`; a node whose children exist carries one remaining
visit (`SDP_RecurseTwo`) plus its children's weight. -/
def Pnode : StepData → Nat
  | ⟨pts, _, _, prog, c1, c2⟩ =>
    let w1 : Nat := match c1 with | none => 0 | some d => Pnode d
    let w2 : Nat := match c2 with | none => 0 | some d => Pnode d
    match prog with
    | SDP_RecurseOne | SDP_FirstIteration => 2 * 3 ^ pts.length
    | SDP_RecurseTwo => 1 + w1 + w2
    | SDP_Done => w1 + w2

/-- `Pnode` lifted to an optional child. -/
def PnodeOpt : Option StepData → Nat
  | none => 0
  | some d => Pnode d

/-- Termination potential of a zipper frame: the reassembled parent's
weight minus the slot the cursor occupies. -/
def Fframe (fr : Frame) : Nat :=
  match fr.progress with
  | SDP_RecurseTwo => 1 + PnodeOpt fr.other
  | SDP_Done => PnodeOpt fr.other
  | _ => 0

/-- Total potential of a context. -/
def ctxWeight (ctx : List Frame) : Nat := (ctx.map Fframe).sum

/-- Total termination potential of a state. -/
def Phi (s : QHState) : Nat := Pnode s.nextStep + ctxWeight s.ctx

/-- Structural well-formedness of a node the cursor can reach: fresh
(`SDP_RecurseOne`) nodes have no children yet; nodes whose children exist
(`SDP_FirstIteration` after `randomizeInput`, `SDP_RecurseTwo` after a
visit) have a non-empty point set and fresh children (strictly smaller for
the root, whose children were built by `randomizeInput`). -/
def NodeOK (d : StepData) : Prop :=
  (d.progress = SDP_RecurseOne → d.recursiveOne = none ∧ d.recursiveTwo = none) ∧
  (d.progress = SDP_FirstIteration →
    d.pointSet ≠ [] ∧
    ∃ c1 c2, d.recursiveOne = some c1 ∧ d.recursiveTwo = some c2 ∧
      c1.progress = SDP_RecurseOne ∧ c1.recursiveOne = none ∧ c1.recursiveTwo = none ∧
      c2.progress = SDP_RecurseOne ∧ c2.recursiveOne = none ∧ c2.recursiveTwo = none ∧
      c1.pointSet.length < d.pointSet.length ∧ c2.pointSet.length < d.pointSet.length) ∧
  (d.progress = SDP_RecurseTwo →
    d.pointSet ≠ [] ∧
    ∃ c2, d.recursiveTwo = some c2 ∧ c2.progress = SDP_RecurseOne ∧
      c2.recursiveOne = none ∧ c2.recursiveTwo = none)

/-- Well-formedness of a zipper frame: parents the cursor is inside are
either finished (`SDP_Done`, second child being processed) or waiting for
their second visit (`SDP_RecurseTwo`, first child being processed, the
fresh second child stored in `other`). -/
def FrameOK (fr : Frame) : Prop :=
  fr.progress = SDP_Done ∨
  (fr.progress = SDP_RecurseTwo ∧ fr.side = Side.one ∧ fr.pointSet ≠ [] ∧
    ∃ d, fr.other = some d ∧ d.progress = SDP_RecurseOne ∧
      d.recursiveOne = none ∧ d.recursiveTwo = none)

/-- Well-formedness of a whole state (holds for `randomizeInput`'s output
and is preserved by `step`). -/
def WFstate (s : QHState) : Prop :=
  NodeOK s.nextStep ∧ ∀ fr ∈ s.ctx, FrameOK fr

/-! ## Helper lemmas -/

theorem comparePoints_iff (p q : Point) : comparePoints p q = true ↔ p = q := by
  cases p; cases q
  simp [comparePoints, Point.mk.injEq]

theorem comparePoints_self (p : Point) : comparePoints p p = true := by
  simp [comparePoints]

theorem calc_eq_filter (A B : Point) (l : List Point) :
    calcPointsOnRightSide A B l = l.filter (rightSidePred A B) := by
  induction l with
  | nil => rfl
  | cons p rest ih =>
    by_cases h : (comparePoints p A || comparePoints p B) = true
    · rw [calcPointsOnRightSide, if_pos h, List.filter_cons, ih]
      simp [rightSidePred, h]
    · rw [calcPointsOnRightSide, if_neg h]
      by_cases hd : determinant A B p < 0
      · rw [if_pos (by simpa [determinant] using hd), List.filter_cons, ih]
        simp [rightSidePred, h, hd]
      · rw [if_neg (by simpa [determinant] using hd), List.filter_cons, ih]
        simp [rightSidePred, h, hd]

theorem filter_length_lt {α : Type} (f : α → Bool) (l : List α) (x : α)
    (hx : x ∈ l) (hfx : f x = false) : (l.filter f).length < l.length := by
  induction l with
  | nil => cases hx
  | cons a rest ih =>
    rcases List.mem_cons.mp hx with rfl | hmem
    · rw [List.filter_cons, hfx]
      have := List.length_filter_le f rest
      simpa using Nat.lt_succ_of_le this
    · rw [List.filter_cons]
      cases h : f a
      · simpa using Nat.lt_succ_of_lt (ih hmem)
      · simpa using Nat.succ_lt_succ (ih hmem)

theorem insertPoint_length (p : Point) (l : List Point) :
    (insertPoint p l).length = l.length + 1 := by
  induction l with
  | nil => rfl
  | cons q rest ih =>
    rw [insertPoint]
    by_cases h : pointLt q p = true
    · simp [h, ih]
    · simp [h]

theorem sortPoints_length (l : List Point) : (sortPoints l).length = l.length := by
  induction l with
  | nil => rfl
  | cons p rest ih => rw [sortPoints, insertPoint_length, ih, List.length_cons]

theorem calcFPGo_mem (A B : Point) (f : Point) (m : Int) (l : List Point) :
    calculateFurthestPointGo A B f m l = f ∨ calculateFurthestPointGo A B f m l ∈ l := by
  induction l generalizing f m with
  | nil => left; rfl
  | cons p rest ih =>
    rw [calculateFurthestPointGo]
    by_cases h : |determinant A B p| > m
    · rw [if_pos h]
      rcases ih p |determinant A B p| with h1 | h1
      · right; rw [h1]; exact List.mem_cons_self p rest
      · right; exact List.mem_cons_of_mem p h1
    · rw [if_neg h]
      rcases ih f m with h1 | h1
      · left; exact h1
      · right; exact List.mem_cons_of_mem p h1

theorem calculateFurthestPoint_mem (A B : Point) (l : List Point) (r : Point)
    (h : calculateFurthestPoint A B l = some r) : r ∈ l := by
  match l with
  | [] => cases h
  | p :: rest =>
    rw [calculateFurthestPoint] at h
    injection h with h
    rcases calcFPGo_mem A B p (-1) (p :: rest) with h1 | h1
    · rw [← h, h1]; exact List.mem_cons_self p rest
    · rw [← h]; exact h1

theorem wrap32_eq_self (z : Int) (h1 : -(2 ^ 31) ≤ z) (h2 : z < 2 ^ 31) :
    wrap32 z = z := by
  unfold wrap32
  rw [Int.emod_eq_of_lt (by omega) (by omega)]
  omega

theorem insertPoint_mem (p x : Point) (l : List Point) :
    x ∈ insertPoint p l ↔ x = p ∨ x ∈ l := by
  induction l with
  | nil => simp [insertPoint]
  | cons q rest ih =>
    rw [insertPoint]
    by_cases h : pointLt q p = true
    · rw [if_pos h]
      simp only [List.mem_cons, ih]
      tauto
    · rw [if_neg h]
      simp only [List.mem_cons]

theorem sortPoints_mem (x : Point) (l : List Point) :
    x ∈ sortPoints l ↔ x ∈ l := by
  induction l with
  | nil => simp [sortPoints]
  | cons p rest ih =>
    rw [sortPoints, insertPoint_mem, ih, List.mem_cons]

theorem not_mem_calc_begin (A B : Point) (l : List Point) :
    A ∉ calcPointsOnRightSide A B l := by
  rw [calc_eq_filter]
  intro h
  have := List.of_mem_filter h
  simp [rightSidePred, comparePoints_self] at this

theorem not_mem_calc_end (A B : Point) (l : List Point) :
    B ∉ calcPointsOnRightSide A B l := by
  rw [calc_eq_filter]
  intro h
  have := List.of_mem_filter h
  simp [rightSidePred, comparePoints_self] at this

theorem calc_sublength (A B : Point) (l : List Point) :
    (calcPointsOnRightSide A B l).length ≤ l.length := by
  rw [calc_eq_filter]
  exact List.length_filter_le _ l

theorem calc_length_lt_of_mem_begin (A B : Point) (l : List Point) (h : A ∈ l) :
    (calcPointsOnRightSide A B l).length < l.length := by
  rw [calc_eq_filter]
  refine filter_length_lt _ l A h ?_
  simp [rightSidePred, comparePoints_self]

theorem calc_length_lt_of_mem_end (A B : Point) (l : List Point) (h : B ∈ l) :
    (calcPointsOnRightSide A B l).length < l.length := by
  rw [calc_eq_filter]
  refine filter_length_lt _ l B h ?_
  simp [rightSidePred, comparePoints_self]

theorem calcFPGo_spec (A B : Point) (l : List Point) : ∀ f : Point,
    (calculateFurthestPointGo A B f (extremalDistance A B f) l = f ∧
      ∀ p ∈ l, extremalDistance A B p ≤ extremalDistance A B f) ∨
    (∃ l1 l2, l = l1 ++ calculateFurthestPointGo A B f (extremalDistance A B f) l :: l2 ∧
      extremalDistance A B f <
        extremalDistance A B (calculateFurthestPointGo A B f (extremalDistance A B f) l) ∧
      (∀ p ∈ l1, extremalDistance A B p <
        extremalDistance A B (calculateFurthestPointGo A B f (extremalDistance A B f) l)) ∧
      (∀ p ∈ l2, extremalDistance A B p ≤
        extremalDistance A B (calculateFurthestPointGo A B f (extremalDistance A B f) l))) := by
  induction l with
  | nil =>
    intro f
    left
    exact ⟨rfl, by simp⟩
  | cons p rest ih =>
    intro f
    rw [calculateFurthestPointGo]
    by_cases h : |determinant A B p| > extremalDistance A B f
    · rw [if_pos h]
      have h' : extremalDistance A B f < extremalDistance A B p := h
      have hgo : calculateFurthestPointGo A B p |determinant A B p| rest =
          calculateFurthestPointGo A B p (extremalDistance A B p) rest := rfl
      rw [hgo]
      rcases ih p with ⟨heq, hall⟩ | ⟨l1, l2, heq, hlt, hstrict, hle⟩
      · right
        refine ⟨[], rest, ?_, ?_, ?_, ?_⟩
        · simp [heq]
        · rw [heq]; exact h'
        · simp
        · rw [heq]; exact hall
      · right
        refine ⟨p :: l1, l2, ?_, ?_, ?_, ?_⟩
        · rw [List.cons_append, ← heq]
        · exact lt_trans h' hlt
        · intro q hq
          rcases List.mem_cons.mp hq with rfl | hq'
          · exact hlt
          · exact hstrict q hq'
        · exact hle
    · rw [if_neg h]
      have h' : extremalDistance A B p ≤ extremalDistance A B f := not_lt.mp h
      rcases ih f with ⟨heq, hall⟩ | ⟨l1, l2, heq, hlt, hstrict, hle⟩
      · left
        refine ⟨heq, ?_⟩
        intro q hq
        rcases List.mem_cons.mp hq with rfl | hq'
        · exact h'
        · exact hall q hq'
      · right
        refine ⟨p :: l1, l2, ?_, hlt, ?_, hle⟩
        · rw [List.cons_append, ← heq]
        · intro q hq
          rcases List.mem_cons.mp hq with rfl | hq'
          · exact lt_of_le_of_lt h' hlt
          · exact hstrict q hq'

theorem calculateFurthestPoint_spec (A B p0 : Point) (rest : List Point) :
    ∃ r l1 l2, calculateFurthestPoint A B (p0 :: rest) = some r ∧
      p0 :: rest = l1 ++ r :: l2 ∧
      (∀ p ∈ p0 :: rest, extremalDistance A B p ≤ extremalDistance A B r) ∧
      (∀ p ∈ l1, extremalDistance A B p < extremalDistance A B r) := by
  have hstep : calculateFurthestPointGo A B p0 (-1) (p0 :: rest) =
      calculateFurthestPointGo A B p0 (extremalDistance A B p0) rest := by
    rw [calculateFurthestPointGo]
    rw [if_pos]
    · rfl
    · have : (0 : Int) ≤ |determinant A B p0| := abs_nonneg _
      omega
  rcases calcFPGo_spec A B rest p0 with ⟨heq, hall⟩ | ⟨l1, l2, heq, hlt, hstrict, hle⟩
  · refine ⟨p0, [], rest, ?_, by simp, ?_, by simp⟩
    · rw [calculateFurthestPoint, hstep, heq]
    · intro p hp
      rcases List.mem_cons.mp hp with rfl | hp'
      · exact le_refl _
      · exact hall p hp'
  · set r := calculateFurthestPointGo A B p0 (extremalDistance A B p0) rest with hr
    refine ⟨r, p0 :: l1, l2, ?_, ?_, ?_, ?_⟩
    · rw [calculateFurthestPoint, hstep]
    · rw [List.cons_append, ← heq]
    · intro p hp
      rcases List.mem_cons.mp hp with rfl | hp'
      · exact le_of_lt hlt
      · rw [heq] at hp'
        rcases List.mem_append.mp hp' with h1 | h2
        · exact le_of_lt (hstrict p h1)
        · rcases List.mem_cons.mp h2 with rfl | h3
          · exact le_refl _
          · exact hle p h3
    · intro p hp
      rcases List.mem_cons.mp hp with rfl | hp'
      · exact hlt
      · exact hstrict p hp'

theorem comparePoints_eq_beq (p q : Point) : comparePoints p q = (p == q) := by
  by_cases h : p = q
  · subst h
    rw [comparePoints_self, beq_self_eq_true]
  · have h1 : comparePoints p q = false := by
      rcases hb : comparePoints p q
      · rfl
      · exact absurd ((comparePoints_iff p q).mp hb) h
    rw [h1]
    symm
    rw [beq_eq_false_iff_ne]
    exact h

/-! ## Claim theorems -/

/-- C5: for all points A, B and every point list, `calcPointsOnRightSide`
returns exactly the points whose orientation determinant against the
directed segment A → B is strictly negative, excluding points
coordinate-equal to A or B (collinear and positive-sign points never appear);
concretely, for boundary (0,0)–(10,0) over candidates (5,-5), (5,5), (5,0):
only (5,-5) is kept, and from the reversed boundary only (5,5) is kept, the
collinear (5,0) being excluded from both sides. -/
theorem spec_c5 :
    (∀ (A B : Point) (l : List Point),
      calcPointsOnRightSide A B l =
        l.filter (fun p => !(p == A) && !(p == B) && decide (determinant A B p < 0))) ∧
    calcPointsOnRightSide ⟨0, 0⟩ ⟨10, 0⟩ [⟨5, -5⟩, ⟨5, 5⟩, ⟨5, 0⟩] = [⟨5, -5⟩] ∧
    calcPointsOnRightSide ⟨10, 0⟩ ⟨0, 0⟩ [⟨5, -5⟩, ⟨5, 5⟩, ⟨5, 0⟩] = [⟨5, 5⟩] := by
  refine ⟨?_, by decide, by decide⟩
  intro A B l
  rw [calc_eq_filter]
  apply List.filter_congr
  intro x _
  simp only [rightSidePred, comparePoints_eq_beq, Bool.not_or, Bool.and_assoc]

/-- C6: for all points A, B and every non-empty point list,
`calculateFurthestPoint` returns the element maximizing
`extremalDistance A B · = |determinant A B ·|`, and among several maximizers
it returns the first in the list's iteration order (every element strictly
before the returned one scores strictly less). -/
theorem spec_c6 : ∀ (A B p0 : Point) (rest : List Point),
    ∃ r l1 l2, calculateFurthestPoint A B (p0 :: rest) = some r ∧
      p0 :: rest = l1 ++ r :: l2 ∧
      (∀ p ∈ p0 :: rest, extremalDistance A B p ≤ extremalDistance A B r) ∧
      (∀ p ∈ l1, extremalDistance A B p < extremalDistance A B r) :=
  fun A B p0 rest => calculateFurthestPoint_spec A B p0 rest

/-- C8: `randomizeInput` with zero generated points does not fail fast with
an explicit error: it runs straight into `basePointList[0]` on the empty
vector (undefined behaviour in the C++, the modelled failure `none` here),
with no emptiness check or reported error anywhere on the path. -/
theorem spec_c8 : randomizeInput [] = none := rfl

/-- C9: for points whose coordinates lie in the generator's range
(x in [windowMargin, windowMargin + pointXmax), y in
[windowMargin, windowMargin + pointYmax)), the orientation determinant
computed in wrapping 32-bit arithmetic (`det32`, the C++ `int` evaluation
order) coincides with the exact integer determinant: no overflow occurs. -/
theorem spec_c9 : ∀ A B C : Point, inWindowRange A → inWindowRange B → inWindowRange C →
    det32 A B C = determinant A B C := by
  intro A B C hA hB hC
  simp only [inWindowRange, windowMargin, pointXmax, pointYmax, windowWidth,
    windowHeight] at hA hB hC
  norm_num at hA hB hC
  obtain ⟨ha1, ha2, ha3, ha4⟩ := hA
  obtain ⟨hb1, hb2, hb3, hb4⟩ := hB
  obtain ⟨hc1, hc2, hc3, hc4⟩ := hC
  have hpow : (2 : Int) ^ 31 = 2147483648 := by norm_num
  have p1a : 100 ≤ A.x * B.y := by nlinarith
  have p1b : A.x * B.y ≤ 899721 := by nlinarith
  have p2a : 100 ≤ C.x * A.y := by nlinarith
  have p2b : C.x * A.y ≤ 899721 := by nlinarith
  have p3a : 100 ≤ B.x * C.y := by nlinarith
  have p3b : B.x * C.y ≤ 899721 := by nlinarith
  have p4a : 100 ≤ C.x * B.y := by nlinarith
  have p4b : C.x * B.y ≤ 899721 := by nlinarith
  have p5a : 100 ≤ B.x * A.y := by nlinarith
  have p5b : B.x * A.y ≤ 899721 := by nlinarith
  have p6a : 100 ≤ A.x * C.y := by nlinarith
  have p6b : A.x * C.y ≤ 899721 := by nlinarith
  unfold det32 determinant
  rw [wrap32_eq_self (A.x * B.y) (by rw [hpow]; linarith) (by rw [hpow]; linarith),
    wrap32_eq_self (C.x * A.y) (by rw [hpow]; linarith) (by rw [hpow]; linarith),
    wrap32_eq_self (B.x * C.y) (by rw [hpow]; linarith) (by rw [hpow]; linarith),
    wrap32_eq_self (C.x * B.y) (by rw [hpow]; linarith) (by rw [hpow]; linarith),
    wrap32_eq_self (B.x * A.y) (by rw [hpow]; linarith) (by rw [hpow]; linarith),
    wrap32_eq_self (A.x * C.y) (by rw [hpow]; linarith) (by rw [hpow]; linarith),
    wrap32_eq_self (A.x * B.y + C.x * A.y) (by rw [hpow]; linarith) (by rw [hpow]; linarith),
    wrap32_eq_self (A.x * B.y + C.x * A.y + B.x * C.y)
      (by rw [hpow]; linarith) (by rw [hpow]; linarith),
    wrap32_eq_self (A.x * B.y + C.x * A.y + B.x * C.y - C.x * B.y)
      (by rw [hpow]; linarith) (by rw [hpow]; linarith),
    wrap32_eq_self (A.x * B.y + C.x * A.y + B.x * C.y - C.x * B.y - B.x * A.y)
      (by rw [hpow]; linarith) (by rw [hpow]; linarith),
    wrap32_eq_self (A.x * B.y + C.x * A.y + B.x * C.y - C.x * B.y - B.x * A.y - A.x * C.y)
      (by rw [hpow]; linarith) (by rw [hpow]; linarith)]

/-- Witness for C9 at concrete in-range points. -/
theorem spec_c9_witness :
    inWindowRange ⟨10, 10⟩ ∧ inWindowRange ⟨100, 200⟩ ∧ inWindowRange ⟨640, 360⟩ ∧
      det32 ⟨10, 10⟩ ⟨100, 200⟩ ⟨640, 360⟩ = determinant ⟨10, 10⟩ ⟨100, 200⟩ ⟨640, 360⟩ :=
  ⟨by decide, by decide, by decide,
    spec_c9 ⟨10, 10⟩ ⟨100, 200⟩ ⟨640, 360⟩ (by decide) (by decide) (by decide)⟩

/-- C4 (amended): every lazily created child built by
`prepareNextRecursion` has a point set free of that child's own boundary
endpoints — both for the first-recursion child `(C → Q)` and the
second-recursion child `(P → C)`. (The root node violates the original
claim: see the counterexample.) -/
theorem spec_c4 : ∀ (pts : List Point) (P Q C : Point),
    ((prepareNextRecursion pts P Q C).1.segmentA ∉ (prepareNextRecursion pts P Q C).1.pointSet) ∧
    ((prepareNextRecursion pts P Q C).1.segmentB ∉ (prepareNextRecursion pts P Q C).1.pointSet) ∧
    ((prepareNextRecursion pts P Q C).2.segmentA ∉ (prepareNextRecursion pts P Q C).2.pointSet) ∧
    ((prepareNextRecursion pts P Q C).2.segmentB ∉ (prepareNextRecursion pts P Q C).2.pointSet) := by
  intro pts P Q C
  simp only [prepareNextRecursion, StepData.pointSet, StepData.segmentA, StepData.segmentB]
  refine ⟨fun h => ?_, fun h => ?_, fun h => ?_, fun h => ?_⟩
  · exact not_mem_calc_begin C Q pts ((sortPoints_mem _ _).mp h)
  · exact not_mem_calc_end C Q pts ((sortPoints_mem _ _).mp h)
  · exact not_mem_calc_begin P C pts ((sortPoints_mem _ _).mp h)
  · exact not_mem_calc_end P C pts ((sortPoints_mem _ _).mp h)

/-- Counterexample to C4 as stated: the root node built by
`randomizeInput` keeps the full input as its point set, so it contains both
of its own boundary endpoints (the two extreme points). -/
theorem spec_c4_counterexample :
    randomizeInput demoInput1 = some demoState1 ∧
    demoState1.nextStep.segmentA = ⟨0, 0⟩ ∧
    demoState1.nextStep.segmentB = ⟨10, 0⟩ ∧
    demoState1.nextStep.pointSet.contains ⟨0, 0⟩ = true ∧
    demoState1.nextStep.pointSet.contains ⟨10, 0⟩ = true := by
  exact ⟨rfl, rfl, rfl, rfl, rfl⟩

theorem Pnode_R1 (pts : List Point) (a b : Point) (c1 c2 : Option StepData) :
    Pnode ⟨pts, a, b, SDP_RecurseOne, c1, c2⟩ = 2 * 3 ^ pts.length := by
  rw [Pnode]

theorem Pnode_FI (pts : List Point) (a b : Point) (c1 c2 : Option StepData) :
    Pnode ⟨pts, a, b, SDP_FirstIteration, c1, c2⟩ = 2 * 3 ^ pts.length := by
  rw [Pnode]

theorem Pnode_R2 (pts : List Point) (a b : Point) (c1 c2 : Option StepData) :
    Pnode ⟨pts, a, b, SDP_RecurseTwo, c1, c2⟩ = 1 + PnodeOpt c1 + PnodeOpt c2 := by
  cases c1 <;> cases c2 <;> simp [Pnode, PnodeOpt]

theorem Pnode_Done (pts : List Point) (a b : Point) (c1 c2 : Option StepData) :
    Pnode ⟨pts, a, b, SDP_Done, c1, c2⟩ = PnodeOpt c1 + PnodeOpt c2 := by
  cases c1 <;> cases c2 <;> simp [Pnode, PnodeOpt]

theorem Pnode_of_R1 (d : StepData) (h : d.progress = SDP_RecurseOne) :
    Pnode d = 2 * 3 ^ d.pointSet.length := by
  obtain ⟨pts, a, b, prog, c1, c2⟩ := d
  cases prog
  · exact Pnode_R1 pts a b c1 c2
  · exact absurd h (by simp [StepData.progress])
  · exact absurd h (by simp [StepData.progress])
  · exact absurd h (by simp [StepData.progress])

theorem ctxWeight_nil : ctxWeight [] = 0 := rfl

theorem ctxWeight_cons (fr : Frame) (rest : List Frame) :
    ctxWeight (fr :: rest) = Fframe fr + ctxWeight rest := rfl

theorem Fframe_R2 (pts : List Point) (a b : Point) (side : Side) (other : Option StepData) :
    Fframe ⟨pts, a, b, SDP_RecurseTwo, side, other⟩ = 1 + PnodeOpt other := rfl

theorem Fframe_Done (pts : List Point) (a b : Point) (side : Side) (other : Option StepData) :
    Fframe ⟨pts, a, b, SDP_Done, side, other⟩ = PnodeOpt other := rfl

theorem potential_lt (n a b : Nat) (ha : a < n) (hb : b < n) :
    2 * 3 ^ a + (1 + 2 * 3 ^ b) < 2 * 3 ^ n := by
  have hn : n - 1 + 1 = n := by omega
  have h3n : 3 ^ n = 3 ^ (n - 1) * 3 := by
    conv_lhs => rw [← hn]
    rw [pow_succ]
  have hA : 3 ^ a ≤ 3 ^ (n - 1) := Nat.pow_le_pow_right (by norm_num) (by omega)
  have hB : 3 ^ b ≤ 3 ^ (n - 1) := Nat.pow_le_pow_right (by norm_num) (by omega)
  have hm : 1 ≤ 3 ^ (n - 1) := Nat.one_le_pow _ _ (by norm_num)
  omega

theorem stepVisit_nil (s : QHState) (a b : Point) (prog : StepDataProgress)
    (c1 c2 : Option StepData) (ctx : List Frame) :
    stepVisit s ⟨[], a, b, prog, c1, c2⟩ ctx = none := rfl

theorem stepVisit_R1 (s : QHState) (p0 : Point) (rest : List Point) (a b : Point)
    (c1 c2 : Option StepData) (ctx : List Frame) :
    ∃ f, calculateFurthestPoint a b (p0 :: rest) = some f ∧
      stepVisit s ⟨p0 :: rest, a, b, SDP_RecurseOne, c1, c2⟩ ctx =
        some (true,
          { s with
            nextStep := ⟨sortPoints (calcPointsOnRightSide f b (p0 :: rest)), f, b,
                         SDP_RecurseOne, none, none⟩
            ctx := (⟨p0 :: rest, a, b, SDP_RecurseTwo, Side.one,
                    some ⟨sortPoints (calcPointsOnRightSide a f (p0 :: rest)), a, f,
                          SDP_RecurseOne, none, none⟩⟩ : Frame) :: ctx
            hullPoints := s.hullPoints ++ [f]
            furthestStore := some f
            minPoint := p0
            maxPoint := (p0 :: rest).getLast (List.cons_ne_nil p0 rest) }) :=
  ⟨calculateFurthestPointGo a b p0 (-1) (p0 :: rest), rfl, rfl⟩

theorem stepVisit_FI (s : QHState) (p0 : Point) (rest : List Point) (a b : Point)
    (c1 : StepData) (c2 : Option StepData) (ctx : List Frame) :
    stepVisit s ⟨p0 :: rest, a, b, SDP_FirstIteration, some c1, c2⟩ ctx =
      some (true,
        { s with
          nextStep := c1
          ctx := (⟨p0 :: rest, a, b, SDP_RecurseTwo, Side.one, c2⟩ : Frame) :: ctx
          minPoint := p0
          maxPoint := (p0 :: rest).getLast (List.cons_ne_nil p0 rest) }) := rfl

theorem stepVisit_FI_none (s : QHState) (p0 : Point) (rest : List Point) (a b : Point)
    (c2 : Option StepData) (ctx : List Frame) :
    stepVisit s ⟨p0 :: rest, a, b, SDP_FirstIteration, none, c2⟩ ctx = none := rfl

theorem stepVisit_R2 (s : QHState) (p0 : Point) (rest : List Point) (a b : Point)
    (c1opt : Option StepData) (c2 : StepData) (ctx : List Frame) :
    stepVisit s ⟨p0 :: rest, a, b, SDP_RecurseTwo, c1opt, some c2⟩ ctx =
      some (true,
        { s with
          nextStep := c2
          ctx := (⟨p0 :: rest, a, b, SDP_Done, Side.two, c1opt⟩ : Frame) :: ctx
          minPoint := p0
          maxPoint := (p0 :: rest).getLast (List.cons_ne_nil p0 rest) }) := rfl

theorem stepVisit_R2_none (s : QHState) (p0 : Point) (rest : List Point) (a b : Point)
    (c1opt : Option StepData) (ctx : List Frame) :
    stepVisit s ⟨p0 :: rest, a, b, SDP_RecurseTwo, c1opt, none⟩ ctx = none := rfl

theorem stepVisit_shape (s : QHState) (cur : StepData) (ctx : List Frame) (r : Bool)
    (s' : QHState) (hnd : cur.progress ≠ SDP_Done)
    (h : stepVisit s cur ctx = some (r, s')) :
    r = true ∧ s'.ctx.length = ctx.length + 1 ∧
      (s'.hullPoints = s.hullPoints ∨ ∃ f, s'.hullPoints = s.hullPoints ++ [f]) := by
  obtain ⟨pts, a, b, prog, c1, c2⟩ := cur
  cases pts with
  | nil => rw [stepVisit_nil] at h; cases h
  | cons p0 rest =>
    cases prog with
    | SDP_RecurseOne =>
      obtain ⟨f, hf, heq⟩ := stepVisit_R1 s p0 rest a b c1 c2 ctx
      rw [heq] at h
      simp only [Option.some.injEq, Prod.mk.injEq] at h
      obtain ⟨hr, hs⟩ := h
      subst hr
      subst hs
      exact ⟨rfl, by simp, Or.inr ⟨f, rfl⟩⟩
    | SDP_FirstIteration =>
      cases c1 with
      | none => rw [stepVisit_FI_none] at h; cases h
      | some c1v =>
        rw [stepVisit_FI] at h
        simp only [Option.some.injEq, Prod.mk.injEq] at h
        obtain ⟨hr, hs⟩ := h
        subst hr
        subst hs
        exact ⟨rfl, by simp, Or.inl rfl⟩
    | SDP_RecurseTwo =>
      cases c2 with
      | none => rw [stepVisit_R2_none] at h; cases h
      | some c2v =>
        rw [stepVisit_R2] at h
        simp only [Option.some.injEq, Prod.mk.injEq] at h
        obtain ⟨hr, hs⟩ := h
        subst hr
        subst hs
        exact ⟨rfl, by simp, Or.inl rfl⟩
    | SDP_Done => exact absurd rfl hnd

theorem stepVisit_spec (s : QHState) (cur : StepData) (ctx : List Frame)
    (hnd : cur.progress ≠ SDP_Done) (hne : cur.pointSet ≠ [])
    (hok : NodeOK cur) (hctx : ∀ fr ∈ ctx, FrameOK fr) :
    ∃ s', stepVisit s cur ctx = some (true, s') ∧
      NodeOK s'.nextStep ∧ (∀ fr ∈ s'.ctx, FrameOK fr) ∧
      Pnode s'.nextStep + ctxWeight s'.ctx < Pnode cur + ctxWeight ctx := by
  obtain ⟨pts, a, b, prog, c1, c2⟩ := cur
  cases pts with
  | nil => exact absurd rfl hne
  | cons p0 rest =>
    cases prog with
    | SDP_RecurseOne =>
      obtain ⟨f, hf, heq⟩ := stepVisit_R1 s p0 rest a b c1 c2 ctx
      refine ⟨_, heq, ?_, ?_, ?_⟩
      · refine ⟨fun _ => ⟨rfl, rfl⟩, fun hcon => ?_, fun hcon => ?_⟩ <;>
          simp [StepData.progress] at hcon
      · intro fr hfr
        simp only [List.mem_cons] at hfr
        rcases hfr with rfl | hfr
        · exact Or.inr ⟨rfl, rfl, List.cons_ne_nil _ _, _, rfl, rfl, rfl, rfl⟩
        · exact hctx fr hfr
      · have hfmem : f ∈ p0 :: rest := calculateFurthestPoint_mem a b (p0 :: rest) f hf
        have h1 : (sortPoints (calcPointsOnRightSide f b (p0 :: rest))).length <
            (p0 :: rest).length := by
          rw [sortPoints_length]
          exact calc_length_lt_of_mem_begin f b _ hfmem
        have h2 : (sortPoints (calcPointsOnRightSide a f (p0 :: rest))).length <
            (p0 :: rest).length := by
          rw [sortPoints_length]
          exact calc_length_lt_of_mem_end a f _ hfmem
        simp only [Pnode_R1, ctxWeight_cons, Fframe_R2, PnodeOpt]
        have := potential_lt (p0 :: rest).length _ _ h1 h2
        simp only [Pnode_R1] at this
        omega
    | SDP_FirstIteration =>
      obtain ⟨-, c1v, c2v, hc1, hc2, hp1, ho1, ht1, hp2, ho2, ht2, hl1, hl2⟩ := hok.2.1 rfl
      simp only [StepData.recursiveOne] at hc1
      simp only [StepData.recursiveTwo] at hc2
      subst hc1
      subst hc2
      refine ⟨_, stepVisit_FI s p0 rest a b c1v (some c2v) ctx, ?_, ?_, ?_⟩
      · refine ⟨fun _ => ⟨ho1, ht1⟩, fun hcon => ?_, fun hcon => ?_⟩ <;>
          · rw [hp1] at hcon; cases hcon
      · intro fr hfr
        simp only [List.mem_cons] at hfr
        rcases hfr with rfl | hfr
        · exact Or.inr ⟨rfl, rfl, List.cons_ne_nil _ _, c2v, rfl, hp2, ho2, ht2⟩
        · exact hctx fr hfr
      · have hl1' : c1v.pointSet.length < (p0 :: rest).length := hl1
        have hl2' : c2v.pointSet.length < (p0 :: rest).length := hl2
        simp only [Pnode_FI, ctxWeight_cons, Fframe_R2, PnodeOpt]
        rw [Pnode_of_R1 c1v hp1, Pnode_of_R1 c2v hp2]
        have := potential_lt (p0 :: rest).length _ _ hl1' hl2'
        omega
    | SDP_RecurseTwo =>
      obtain ⟨-, c2v, hc2, hp2, ho2, ht2⟩ := hok.2.2 rfl
      simp only [StepData.recursiveTwo] at hc2
      subst hc2
      refine ⟨_, stepVisit_R2 s p0 rest a b c1 c2v ctx, ?_, ?_, ?_⟩
      · refine ⟨fun _ => ⟨ho2, ht2⟩, fun hcon => ?_, fun hcon => ?_⟩ <;>
          · rw [hp2] at hcon; cases hcon
      · intro fr hfr
        simp only [List.mem_cons] at hfr
        rcases hfr with rfl | hfr
        · exact Or.inl rfl
        · exact hctx fr hfr
      · simp only [Pnode_R2, ctxWeight_cons, Fframe_Done, PnodeOpt]
        omega
    | SDP_Done => exact absurd rfl hnd

theorem setProgress_progress (d : StepData) (p : StepDataProgress) :
    (d.setProgress p).progress = p := by
  obtain ⟨pts, a, b, q, c1, c2⟩ := d
  rfl

theorem stepPop_done_nil (s : QHState) (cur : StepData) (h : cur.progress = SDP_Done) :
    stepPop s cur [] = some (false, { s with nextStep := cur.clearChildren, ctx := [] }) := by
  unfold stepPop
  rw [if_pos h]

theorem stepPop_done_cons (s : QHState) (cur : StepData) (fr : Frame) (rest : List Frame)
    (h : cur.progress = SDP_Done) :
    stepPop s cur (fr :: rest) = stepPop s (fr.reassemble cur.clearChildren) rest := by
  conv_lhs => unfold stepPop
  rw [if_pos h]

theorem stepPop_notDone (s : QHState) (cur : StepData) (ctx : List Frame)
    (h : cur.progress ≠ SDP_Done) :
    stepPop s cur ctx = stepVisit s cur ctx := by
  unfold stepPop
  rw [if_neg h]

theorem stepPop_shape : ∀ (ctx : List Frame) (s : QHState) (cur : StepData) (r : Bool)
    (s' : QHState), stepPop s cur ctx = some (r, s') →
    (r = false ∧ s'.ctx = [] ∧ s'.hullPoints = s.hullPoints ∧
      s'.nextStep.progress = SDP_Done ∧ s'.nextStep.recursiveOne = none ∧
      s'.nextStep.recursiveTwo = none ∧ s'.basePointList = s.basePointList ∧
      s'.center = s.center ∧ s'.minPoint = s.minPoint ∧ s'.maxPoint = s.maxPoint ∧
      s'.furthestStore = s.furthestStore) ∨
    (r = true ∧ ∃ k, k ≤ ctx.length ∧ s'.ctx.length + k = ctx.length + 1 ∧
      (s'.hullPoints = s.hullPoints ∨ ∃ f, s'.hullPoints = s.hullPoints ++ [f])) := by
  intro ctx
  induction ctx with
  | nil =>
    intro s cur r s' h
    by_cases hd : cur.progress = SDP_Done
    · rw [stepPop_done_nil s cur hd] at h
      simp only [Option.some.injEq, Prod.mk.injEq] at h
      obtain ⟨hr, hs⟩ := h
      subst hr
      subst hs
      obtain ⟨pts, a, b, p, c1, c2⟩ := cur
      exact Or.inl ⟨rfl, rfl, rfl, hd, rfl, rfl, rfl, rfl, rfl, rfl, rfl⟩
    · rw [stepPop_notDone _ _ _ hd] at h
      obtain ⟨hr, hl, hh⟩ := stepVisit_shape s cur [] r s' hd h
      subst hr
      exact Or.inr ⟨rfl, 0, by omega, by omega, hh⟩
  | cons fr rest ih =>
    intro s cur r s' h
    by_cases hd : cur.progress = SDP_Done
    · rw [stepPop_done_cons s cur fr rest hd] at h
      rcases ih s _ r s' h with hfalse | ⟨hr, k, hk1, hk2, hh⟩
      · exact Or.inl hfalse
      · refine Or.inr ⟨hr, k + 1, ?_, ?_, hh⟩
        · have : (fr :: rest).length = rest.length + 1 := rfl
          omega
        · have : (fr :: rest).length = rest.length + 1 := rfl
          omega
    · rw [stepPop_notDone _ _ _ hd] at h
      obtain ⟨hr, hl, hh⟩ := stepVisit_shape s cur (fr :: rest) r s' hd h
      subst hr
      exact Or.inr ⟨rfl, 0, by omega, by omega, hh⟩

theorem reassemble_potential (fr : Frame) (cur : StepData) (hfr : FrameOK fr)
    (hcur : cur.progress = SDP_Done) :
    Pnode (fr.reassemble cur.clearChildren) ≤ Fframe fr := by
  obtain ⟨cpts, ca, cb, cp, cc1, cc2⟩ := cur
  have hcp : cp = SDP_Done := hcur
  subst hcp
  have hclear : Pnode (StepData.clearChildren ⟨cpts, ca, cb, SDP_Done, cc1, cc2⟩) = 0 := by
    show Pnode ⟨cpts, ca, cb, SDP_Done, none, none⟩ = 0
    rw [Pnode_Done]
    rfl
  obtain ⟨fpts, fa, fb, fprog, fside, fother⟩ := fr
  rcases hfr with hDone | ⟨hR2, hside, -, d, hother, -, -, -⟩
  · have : fprog = SDP_Done := hDone
    subst this
    cases fside <;>
      simp only [Frame.reassemble, Pnode_Done, Fframe_Done, PnodeOpt, hclear] <;>
      omega
  · have : fprog = SDP_RecurseTwo := hR2
    subst this
    have : fside = Side.one := hside
    subst this
    simp only [Frame.reassemble, Pnode_R2, Fframe_R2, PnodeOpt, hclear]
    omega

theorem stepPop_spec : ∀ (ctx : List Frame) (s : QHState) (cur : StepData),
    (∀ fr ∈ ctx, FrameOK fr) →
    (cur.progress = SDP_Done ∨ (cur.pointSet ≠ [] ∧ NodeOK cur)) →
    ∃ r s', stepPop s cur ctx = some (r, s') ∧
      (r = true → WFstate s' ∧
        Pnode s'.nextStep + ctxWeight s'.ctx < Pnode cur + ctxWeight ctx) := by
  intro ctx
  induction ctx with
  | nil =>
    intro s cur hctx hcur
    by_cases hd : cur.progress = SDP_Done
    · exact ⟨false, _, stepPop_done_nil s cur hd, fun hcon => nomatch hcon⟩
    · rcases hcur with hcon | ⟨hne, hok⟩
      · exact absurd hcon hd
      · rw [stepPop_notDone _ _ _ hd]
        obtain ⟨s', heq, h1, h2, h3⟩ := stepVisit_spec s cur [] hd hne hok hctx
        exact ⟨true, s', heq, fun _ => ⟨⟨h1, h2⟩, h3⟩⟩
  | cons fr rest ih =>
    intro s cur hctx hcur
    by_cases hd : cur.progress = SDP_Done
    · rw [stepPop_done_cons s cur fr rest hd]
      have hfr : FrameOK fr := hctx fr (List.mem_cons_self fr rest)
      have hctx' : ∀ g ∈ rest, FrameOK g := fun g hg => hctx g (List.mem_cons_of_mem fr hg)
      have hcond : (fr.reassemble cur.clearChildren).progress = SDP_Done ∨
          ((fr.reassemble cur.clearChildren).pointSet ≠ [] ∧
            NodeOK (fr.reassemble cur.clearChildren)) := by
        obtain ⟨fpts, fa, fb, fprog, fside, fother⟩ := fr
        rcases hfr with hDone | ⟨hR2, hside, hne, d, hother, hdp, hdo, hdt⟩
        · left
          have : fprog = SDP_Done := hDone
          subst this
          cases fside <;> rfl
        · right
          have : fprog = SDP_RecurseTwo := hR2
          subst this
          have : fside = Side.one := hside
          subst this
          have hother' : fother = some d := hother
          subst hother'
          refine ⟨hne, ?_⟩
          unfold NodeOK
          refine ⟨?_, ?_, ?_⟩
          · intro hcon
            exact nomatch hcon
          · intro hcon
            exact nomatch hcon
          · intro _
            exact ⟨hne, d, rfl, hdp, hdo, hdt⟩
      obtain ⟨r, s', heq, hmore⟩ := ih s _ hctx' hcond
      refine ⟨r, s', heq, fun hr => ?_⟩
      obtain ⟨hwf', hphi⟩ := hmore hr
      refine ⟨hwf', lt_of_lt_of_le hphi ?_⟩
      have := reassemble_potential fr cur (hctx fr (List.mem_cons_self fr rest)) hd
      rw [ctxWeight_cons]
      omega
    · rcases hcur with hcon | ⟨hne, hok⟩
      · exact absurd hcon hd
      · rw [stepPop_notDone _ _ _ hd]
        obtain ⟨s', heq, h1, h2, h3⟩ := stepVisit_spec s cur (fr :: rest) hd hne hok hctx
        exact ⟨true, s', heq, fun _ => ⟨⟨h1, h2⟩, h3⟩⟩

theorem Pnode_setDone_le (d : StepData) (hok : NodeOK d) (hemp : d.pointSet = []) :
    Pnode (d.setProgress SDP_Done) ≤ Pnode d := by
  obtain ⟨pts, a, b, p, c1, c2⟩ := d
  cases p with
  | SDP_RecurseOne =>
    obtain ⟨h1, h2⟩ := hok.1 rfl
    have hc1 : c1 = none := h1
    have hc2 : c2 = none := h2
    subst hc1
    subst hc2
    show Pnode ⟨pts, a, b, SDP_Done, none, none⟩ ≤ Pnode ⟨pts, a, b, SDP_RecurseOne, none, none⟩
    rw [Pnode_Done, Pnode_R1]
    simp [PnodeOpt]
  | SDP_FirstIteration =>
    obtain ⟨hne, -⟩ := hok.2.1 rfl
    exact absurd hemp hne
  | SDP_RecurseTwo =>
    show Pnode ⟨pts, a, b, SDP_Done, c1, c2⟩ ≤ Pnode ⟨pts, a, b, SDP_RecurseTwo, c1, c2⟩
    rw [Pnode_Done, Pnode_R2]
    omega
  | SDP_Done =>
    exact le_refl _

theorem step_spec (s : QHState) (hwf : WFstate s) :
    ∃ r s', step s = some (r, s') ∧ (r = true → WFstate s' ∧ Phi s' < Phi s) := by
  obtain ⟨hnode, hframes⟩ := hwf
  by_cases hemp : s.nextStep.pointSet.isEmpty = true
  · have hstep : step s = stepPop s (s.nextStep.setProgress SDP_Done) s.ctx := by
      unfold step
      rw [if_pos hemp]
    have hpts : s.nextStep.pointSet = [] := List.isEmpty_iff.mp hemp
    obtain ⟨r, s', heq, hmore⟩ :=
      stepPop_spec s.ctx s _ hframes (Or.inl (setProgress_progress _ _))
    refine ⟨r, s', hstep ▸ heq, fun hr => ?_⟩
    obtain ⟨hwf', hphi⟩ := hmore hr
    refine ⟨hwf', lt_of_lt_of_le hphi ?_⟩
    have := Pnode_setDone_le s.nextStep hnode hpts
    unfold Phi
    omega
  · have hne : s.nextStep.pointSet ≠ [] := by
      intro hcon
      rw [hcon] at hemp
      exact hemp rfl
    have hstep : step s = stepPop s s.nextStep s.ctx := by
      unfold step
      rw [if_neg hemp]
    obtain ⟨r, s', heq, hmore⟩ := stepPop_spec s.ctx s s.nextStep hframes (Or.inr ⟨hne, hnode⟩)
    exact ⟨r, s', hstep ▸ heq, hmore⟩

theorem run_terminates : ∀ (n : Nat) (s : QHState), WFstate s → Phi s < n →
    ∃ s', run n s = some s' := by
  intro n
  induction n with
  | zero => intro s _ hcon; cases hcon
  | succ n ih =>
    intro s hwf hphi
    obtain ⟨r, s', heq, hmore⟩ := step_spec s hwf
    cases r with
    | false =>
      refine ⟨s', ?_⟩
      rw [run, heq]
    | true =>
      obtain ⟨hwf', hphi'⟩ := hmore rfl
      obtain ⟨s'', hrun⟩ := ih s' hwf' (by omega)
      refine ⟨s'', ?_⟩
      rw [run, heq]
      exact hrun

theorem randomizeInput_eq (l : List Point) (p0 : Point) (rest : List Point)
    (hsort : sortPoints l = p0 :: rest) :
    randomizeInput l = some
      { basePointList := p0 :: rest
        hullPoints := [p0, (p0 :: rest).getLast (List.cons_ne_nil p0 rest)]
        nextStep := ⟨p0 :: rest, p0, (p0 :: rest).getLast (List.cons_ne_nil p0 rest),
                     SDP_FirstIteration,
                     some ⟨sortPoints (calcPointsOnRightSide
                             ((p0 :: rest).getLast (List.cons_ne_nil p0 rest)) p0 (p0 :: rest)),
                           (p0 :: rest).getLast (List.cons_ne_nil p0 rest), p0,
                           SDP_RecurseOne, none, none⟩,
                     some ⟨sortPoints (calcPointsOnRightSide p0
                             ((p0 :: rest).getLast (List.cons_ne_nil p0 rest)) (p0 :: rest)),
                           p0, (p0 :: rest).getLast (List.cons_ne_nil p0 rest),
                           SDP_RecurseOne, none, none⟩⟩
        ctx := []
        center := ⟨windowWidth / 2, windowHeight / 2⟩
        minPoint := p0
        maxPoint := (p0 :: rest).getLast (List.cons_ne_nil p0 rest)
        furthestStore := none } := by
  unfold randomizeInput
  rw [hsort]
  rfl

theorem randomizeInput_WF (l : List Point) (p0 : Point) (rest : List Point)
    (hsort : sortPoints l = p0 :: rest) :
    ∃ s₀, randomizeInput l = some s₀ ∧ WFstate s₀ ∧
      s₀.hullPoints = [p0, (p0 :: rest).getLast (List.cons_ne_nil p0 rest)] := by
  refine ⟨_, randomizeInput_eq l p0 rest hsort, ⟨?_, ?_⟩, rfl⟩
  · unfold NodeOK
    refine ⟨?_, ?_, ?_⟩
    · intro hcon
      exact nomatch hcon
    · intro _
      refine ⟨List.cons_ne_nil p0 rest, _, _, rfl, rfl, rfl, rfl, rfl, rfl, rfl, rfl, ?_, ?_⟩
      · show (sortPoints (calcPointsOnRightSide
          ((p0 :: rest).getLast (List.cons_ne_nil p0 rest)) p0 (p0 :: rest))).length <
            (p0 :: rest).length
        rw [sortPoints_length]
        exact calc_length_lt_of_mem_end _ _ _ (List.mem_cons_self p0 rest)
      · show (sortPoints (calcPointsOnRightSide p0
          ((p0 :: rest).getLast (List.cons_ne_nil p0 rest)) (p0 :: rest))).length <
            (p0 :: rest).length
        rw [sortPoints_length]
        exact calc_length_lt_of_mem_begin _ _ _ (List.mem_cons_self p0 rest)
    · intro hcon
      exact nomatch hcon
  · intro fr hfr
    exact absurd hfr (List.not_mem_nil fr)

theorem step_visit_eq (s : QHState) (p0 : Point) (rest : List Point) (a b : Point)
    (prog : StepDataProgress) (c1 c2 : Option StepData)
    (hs : s.nextStep = ⟨p0 :: rest, a, b, prog, c1, c2⟩) (hnd : prog ≠ SDP_Done) :
    step s = stepVisit s s.nextStep s.ctx := by
  unfold step
  rw [hs]
  rw [if_neg (by simp [StepData.pointSet] :
    ¬((⟨p0 :: rest, a, b, prog, c1, c2⟩ : StepData).pointSet.isEmpty = true))]
  exact stepPop_notDone s _ s.ctx hnd

/-- C7: for every input list containing at least two distinct points,
`randomizeInput` succeeds and repeatedly calling `step` reaches the
"no more steps" result (`step` returning `false`) after a finite number of
calls (witnessed by a fuel bound on `run`). -/
theorem spec_c7 : ∀ (l : List Point) (p q : Point), p ∈ l → q ∈ l → p ≠ q →
    ∃ s₀ n s', randomizeInput l = some s₀ ∧ run n s₀ = some s' := by
  intro l p q hp _ _
  obtain ⟨p0, rest, hsort⟩ : ∃ p0 rest, sortPoints l = p0 :: rest := by
    cases hs : sortPoints l with
    | nil =>
      have h0 : l.length = 0 := by rw [← sortPoints_length l, hs]; rfl
      have : l = [] := List.length_eq_zero.mp h0
      subst this
      cases hp
    | cons x xs => exact ⟨x, xs, rfl⟩
  obtain ⟨s₀, heq, hwf, -⟩ := randomizeInput_WF l p0 rest hsort
  obtain ⟨s', hrun⟩ := run_terminates (Phi s₀ + 1) s₀ hwf (by omega)
  exact ⟨s₀, Phi s₀ + 1, s', heq, hrun⟩

/-- Witness for C7 on the two-point input `[(0,0), (1,1)]`. -/
theorem spec_c7_witness :
    (⟨0, 0⟩ : Point) ∈ [(⟨0, 0⟩ : Point), ⟨1, 1⟩] ∧
      (⟨1, 1⟩ : Point) ∈ [(⟨0, 0⟩ : Point), ⟨1, 1⟩] ∧
      (⟨0, 0⟩ : Point) ≠ (⟨1, 1⟩ : Point) ∧
      ∃ s₀ n s', randomizeInput [(⟨0, 0⟩ : Point), ⟨1, 1⟩] = some s₀ ∧ run n s₀ = some s' :=
  ⟨by decide, by decide, by decide,
    spec_c7 [⟨0, 0⟩, ⟨1, 1⟩] ⟨0, 0⟩ ⟨1, 1⟩ (by decide) (by decide) (by decide)⟩

/-- C10: once `step` has returned `false`, every later call returns
`false` again and leaves the state (hull points, recursion tree, cursor,
every member) exactly as it was. -/
theorem spec_c10 : ∀ (s s' : QHState), step s = some (false, s') →
    step s' = some (false, s') ∧ ∀ n : Nat, stepRepeat s' n = some (false, s') := by
  intro s s' h
  have h' : stepPop s (if s.nextStep.pointSet.isEmpty then s.nextStep.setProgress SDP_Done
      else s.nextStep) s.ctx = some (false, s') := h
  rcases stepPop_shape s.ctx s _ false s' h' with
    ⟨-, hctx, -, hprog, hc1, hc2, -, -, -, -, -⟩ | ⟨hcon, -⟩
  · obtain ⟨base', hull', next', ctx', center', min', max', fsto'⟩ := s'
    obtain ⟨pts', a', b', prog', nc1, nc2⟩ := next'
    have hp : prog' = SDP_Done := hprog
    have h1 : nc1 = none := hc1
    have h2 : nc2 = none := hc2
    have h3 : ctx' = [] := hctx
    subst hp
    subst h1
    subst h2
    subst h3
    have hstep' : step ⟨base', hull', ⟨pts', a', b', SDP_Done, none, none⟩, [],
        center', min', max', fsto'⟩ =
        some (false, ⟨base', hull', ⟨pts', a', b', SDP_Done, none, none⟩, [],
          center', min', max', fsto'⟩) := by
      cases pts' with
      | nil => rfl
      | cons x xs => rfl
    refine ⟨hstep', ?_⟩
    intro n
    induction n with
    | zero => exact hstep'
    | succ k ihk =>
      show stepRepeat _ (k + 1) = _
      rw [stepRepeat, hstep']
      exact ihk
  · cases hcon

/-- Witness for C10 at an exhausted concrete state. -/
theorem spec_c10_witness :
    step finishedDemo = some (false, finishedDemo) ∧
      ∀ n : Nat, stepRepeat finishedDemo n = some (false, finishedDemo) :=
  spec_c10 finishedDemo finishedDemo rfl

/-- C1 (amended): on a `step()` call whose cursor has a non-empty point set,
only the `SDP_RecurseOne` state creates the two children (partitioning the
node's points against (boundary.A → furthest) and (furthest → boundary.B))
and appends `furthest` to the hull sequence; in the `SDP_FirstIteration`
state the call appends nothing and creates nothing — the root's children
already exist from `randomizeInput` — and only shares the transition to
`SDP_RecurseTwo` and the descent into `recursiveOne`; the two global extreme
points enter the hull sequence at computation start, inside
`randomizeInput`. -/
theorem spec_c1 :
    (∀ (s : QHState) (p0 : Point) (rest : List Point) (a b : Point) (c1 c2 : Option StepData),
      s.nextStep = ⟨p0 :: rest, a, b, SDP_RecurseOne, c1, c2⟩ →
      ∃ f s', calculateFurthestPoint a b (p0 :: rest) = some f ∧
        step s = some (true, s') ∧
        s'.hullPoints = s.hullPoints ++ [f] ∧
        s'.nextStep = ⟨sortPoints (calcPointsOnRightSide f b (p0 :: rest)), f, b,
                       SDP_RecurseOne, none, none⟩ ∧
        s'.ctx = (⟨p0 :: rest, a, b, SDP_RecurseTwo, Side.one,
                  some ⟨sortPoints (calcPointsOnRightSide a f (p0 :: rest)), a, f,
                        SDP_RecurseOne, none, none⟩⟩ : Frame) :: s.ctx) ∧
    (∀ (s : QHState) (p0 : Point) (rest : List Point) (a b : Point)
        (c1 : StepData) (c2 : Option StepData),
      s.nextStep = ⟨p0 :: rest, a, b, SDP_FirstIteration, some c1, c2⟩ →
      ∃ s', step s = some (true, s') ∧
        s'.hullPoints = s.hullPoints ∧
        s'.nextStep = c1 ∧
        s'.ctx = (⟨p0 :: rest, a, b, SDP_RecurseTwo, Side.one, c2⟩ : Frame) :: s.ctx) ∧
    (∀ (l : List Point) (p0 : Point) (rest : List Point),
      sortPoints l = p0 :: rest →
      ∃ s₀, randomizeInput l = some s₀ ∧
        s₀.hullPoints = [p0, (p0 :: rest).getLast (List.cons_ne_nil p0 rest)]) := by
  refine ⟨?_, ?_, ?_⟩
  · intro s p0 rest a b c1 c2 hs
    have hstep := step_visit_eq s p0 rest a b SDP_RecurseOne c1 c2 hs
      (fun hcon => nomatch hcon)
    obtain ⟨f, hf, heq⟩ := stepVisit_R1 s p0 rest a b c1 c2 s.ctx
    rw [hs, heq] at hstep
    exact ⟨f, _, hf, hstep, rfl, rfl, rfl⟩
  · intro s p0 rest a b c1 c2 hs
    have hstep := step_visit_eq s p0 rest a b SDP_FirstIteration (some c1) c2 hs
      (fun hcon => nomatch hcon)
    rw [hs, stepVisit_FI] at hstep
    exact ⟨_, hstep, rfl, rfl, rfl⟩
  · intro l p0 rest hsort
    obtain ⟨s₀, heq, -, hhull⟩ := randomizeInput_WF l p0 rest hsort
    exact ⟨s₀, heq, hhull⟩

/-- Counterexample to C1 as stated: on the very first `step()` call the
cursor is in `SDP_FirstIteration` with a non-empty point set, yet the call
appends nothing to the hull sequence — the hull still holds exactly the two
extreme points afterwards, not a newly appended furthest point. -/
theorem spec_c1_counterexample :
    randomizeInput demoInput1 = some demoState1 ∧
    demoState1.nextStep.progress = SDP_FirstIteration ∧
    demoState1.nextStep.pointSet = [⟨0, 0⟩, ⟨5, 5⟩, ⟨10, 0⟩] ∧
    demoState1.hullPoints = [⟨0, 0⟩, ⟨10, 0⟩] ∧
    (step demoState1).map (fun r => r.1) = some true ∧
    (step demoState1).map (fun r => r.2.hullPoints) = some [⟨0, 0⟩, ⟨10, 0⟩] :=
  ⟨rfl, rfl, rfl, rfl, rfl, rfl⟩

/-- C2 (amended): on the first visit of a node with a non-empty point set
the cursor descends into `recursiveOne`, the child whose boundary segment
is (furthest → boundary.B), leaving a frame in state `SDP_RecurseTwo` that
stores the (boundary.A → furthest) child; on the node's next visit the node
is marked `SDP_Done` and the cursor descends into that stored
(boundary.A → furthest) child. -/
theorem spec_c2 :
    (∀ (s : QHState) (p0 : Point) (rest : List Point) (a b : Point) (c1 c2 : Option StepData),
      s.nextStep = ⟨p0 :: rest, a, b, SDP_RecurseOne, c1, c2⟩ →
      ∃ f s', calculateFurthestPoint a b (p0 :: rest) = some f ∧
        step s = some (true, s') ∧
        s'.nextStep.segmentA = f ∧ s'.nextStep.segmentB = b ∧
        s'.nextStep.pointSet = sortPoints (calcPointsOnRightSide f b (p0 :: rest)) ∧
        s'.ctx.head? = some (⟨p0 :: rest, a, b, SDP_RecurseTwo, Side.one,
          some ⟨sortPoints (calcPointsOnRightSide a f (p0 :: rest)), a, f,
                SDP_RecurseOne, none, none⟩⟩ : Frame)) ∧
    (∀ (s : QHState) (p0 : Point) (rest : List Point) (a b : Point)
        (c1opt : Option StepData) (c2 : StepData),
      s.nextStep = ⟨p0 :: rest, a, b, SDP_RecurseTwo, c1opt, some c2⟩ →
      ∃ s', step s = some (true, s') ∧ s'.nextStep = c2 ∧
        s'.ctx.head? = some (⟨p0 :: rest, a, b, SDP_Done, Side.two, c1opt⟩ : Frame)) := by
  refine ⟨?_, ?_⟩
  · intro s p0 rest a b c1 c2 hs
    have hstep := step_visit_eq s p0 rest a b SDP_RecurseOne c1 c2 hs
      (fun hcon => nomatch hcon)
    obtain ⟨f, hf, heq⟩ := stepVisit_R1 s p0 rest a b c1 c2 s.ctx
    rw [hs, heq] at hstep
    exact ⟨f, _, hf, hstep, rfl, rfl, rfl, rfl⟩
  · intro s p0 rest a b c1opt c2 hs
    have hstep := step_visit_eq s p0 rest a b SDP_RecurseTwo c1opt (some c2) hs
      (fun hcon => nomatch hcon)
    rw [hs, stepVisit_R2] at hstep
    exact ⟨_, hstep, rfl, rfl⟩

/-- Counterexample to C2 as stated: at a `SDP_RecurseOne` node with
boundary A = (10,0), B = (0,0) and furthest point (5,1), the first descent
goes into the child with boundary ((5,1) → (0,0)) — the
(furthest → boundary.B) child — not into ((10,0) → (5,1)) as the claim's
(boundary.A → furthest) ordering requires. -/
theorem spec_c2_counterexample :
    step demoState2a = some (true, demoState2b) ∧
    demoState2a.nextStep.progress = SDP_RecurseOne ∧
    demoState2a.nextStep.pointSet = [⟨5, 1⟩] ∧
    demoState2a.nextStep.segmentA = ⟨10, 0⟩ ∧
    demoState2a.nextStep.segmentB = ⟨0, 0⟩ ∧
    calculateFurthestPoint ⟨10, 0⟩ ⟨0, 0⟩ [⟨5, 1⟩] = some ⟨5, 1⟩ ∧
    demoState2b.nextStep.segmentA = ⟨5, 1⟩ ∧
    demoState2b.nextStep.segmentB = ⟨0, 0⟩ ∧
    ((demoState2b.nextStep.segmentA == (⟨10, 0⟩ : Point)) = false) :=
  ⟨rfl, rfl, rfl, rfl, rfl, rfl, rfl, rfl, rfl⟩

/-- C3 (amended): a `step()` call either returns `false` with the context
exhausted and the hull unchanged, or returns `true` having popped `k ≥ 0`
frames and then performed exactly one visit (one new frame pushed, the hull
extended by at most one furthest point); marking an empty cursor done,
popping, and the visit can all occur inside the same call. -/
theorem spec_c3 : ∀ (s : QHState) (r : Bool) (s' : QHState), step s = some (r, s') →
    (r = false ∧ s'.ctx = [] ∧ s'.hullPoints = s.hullPoints) ∨
    (r = true ∧ ∃ k, k ≤ s.ctx.length ∧ s'.ctx.length + k = s.ctx.length + 1 ∧
      (s'.hullPoints = s.hullPoints ∨ ∃ f, s'.hullPoints = s.hullPoints ++ [f])) := by
  intro s r s' h
  have h' : stepPop s (if s.nextStep.pointSet.isEmpty then s.nextStep.setProgress SDP_Done
      else s.nextStep) s.ctx = some (r, s') := h
  rcases stepPop_shape s.ctx s _ r s' h' with ⟨hr, hctx, hhull, -, -, -, -, -, -, -, -⟩ |
    ⟨hr, hrest⟩
  · exact Or.inl ⟨hr, hctx, hhull⟩
  · exact Or.inr ⟨hr, hrest⟩

/-- Witness for C3 at a concrete exhausted state. -/
theorem spec_c3_witness :
    (false = false ∧ finishedDemo.ctx = [] ∧
      finishedDemo.hullPoints = finishedDemo.hullPoints) ∨
    (false = true ∧ ∃ k, k ≤ finishedDemo.ctx.length ∧
      finishedDemo.ctx.length + k = finishedDemo.ctx.length + 1 ∧
      (finishedDemo.hullPoints = finishedDemo.hullPoints ∨
        ∃ f, finishedDemo.hullPoints = finishedDemo.hullPoints ++ [f])) :=
  spec_c3 finishedDemo false finishedDemo rfl

/-- Counterexample to C3 as stated: from a reachable state whose cursor has
an empty point set, a single `step()` call marks that node done, pops to
the parent, performs the parent's second visit (the parent frame flips from
`SDP_RecurseTwo` to `SDP_Done`) and descends into the second child — a
combination of all three actions. It is neither a marking alone (the state
differs from just setting the cursor's progress), nor a pop alone (the
context did not shrink), nor a visit of the cursor (its point set was
empty). -/
theorem spec_c3_counterexample :
    step demoState2b = some (true, demoState2c) ∧
    demoState2b.nextStep.pointSet = [] ∧
    demoState2b.ctx.map Frame.progress = [SDP_RecurseTwo, SDP_RecurseTwo] ∧
    demoState2c.ctx.map Frame.progress = [SDP_Done, SDP_RecurseTwo] ∧
    demoState2c.ctx.length = demoState2b.ctx.length ∧
    demoState2c.nextStep.segmentA = ⟨10, 0⟩ ∧
    demoState2c.nextStep.segmentB = ⟨5, 1⟩ ∧
    ¬(demoState2c = { demoState2b with
        nextStep := demoState2b.nextStep.setProgress SDP_Done }) ∧
    ¬(demoState2c.ctx.length < demoState2b.ctx.length) := by
  refine ⟨rfl, rfl, rfl, rfl, rfl, by decide, by decide, ?_, ?_⟩
  · intro hcon
    have hmap := congrArg (fun st => st.ctx.map Frame.progress) hcon
    exact absurd hmap (by decide)
  · decide
